import Mathlib

/-!
Shallow embedding of the backtesting and strategy-evaluation engine of the
Trading_Platform repository (server/src/backtest/engine.ts,
server/src/strategies/base.ts, server/src/strategies/sma-crossover.ts,
server/src/strategies/index.ts).

Monetary amounts and prices are modelled as rationals (the TypeScript source
uses JS numbers); share quantities and positions as integers; bar indices as
naturals. Division by zero in ℚ is total (returns 0), which matches no branch
the claims exercise. Trades and equity points are explicit records mirroring
the source's `Trade` and `EquityPoint` shapes.
-/

namespace TradingPlatform

/-- The `action` field of a `StrategySignal` / `Trade` in server/src/types. -/
inductive TradeAction where
  | buy
  | sell
  | hold
deriving DecidableEq, Repr

/-- An OHLCV bar (`Bar` in server/src/types): timestamp `t`, open `o`,
high `h`, low `l`, close `c`, volume `v`. -/
structure Bar where
  t : Nat
  o : ℚ
  hi : ℚ
  lo : ℚ
  c : ℚ
  v : ℚ
deriving DecidableEq, Repr

instance : Inhabited Bar := ⟨⟨0, 0, 0, 0, 0, 0⟩⟩

/-- A strategy signal (`StrategySignal` in server/src/types). -/
structure StrategySignal where
  timestamp : Nat
  action : TradeAction
  confidence : ℚ
  reason : String
deriving DecidableEq, Repr

/-- Embeds `BaseStrategy.calculateSMA` (server/src/strategies/base.ts): returns 0
while `endIndex < period - 1`, otherwise the mean of the `period` closes
ending at `endIndex`. -/
def calculateSMA (bars : List Bar) (period : Nat) (endIndex : Nat) : ℚ :=
  if endIndex < period - 1 then 0
  else
    (((List.range period).map
        (fun k => (bars.getD (endIndex + 1 - period + k) default).c)).sum) / period

/-- Embeds `BaseStrategy.calculateRSI` (server/src/strategies/base.ts): neutral 50
while `endIndex < period`; otherwise simple averages of gains and losses over
the trailing `period` close-to-close changes, 100 when the average loss is 0,
else `100 - 100/(1 + avgGain/avgLoss)`. -/
def calculateRSI (bars : List Bar) (period : Nat) (endIndex : Nat) : ℚ :=
  if endIndex < period then 50
  else
    let change : Nat → ℚ := fun k =>
      (bars.getD (endIndex + 1 - period + k) default).c -
        (bars.getD (endIndex - period + k) default).c
    let gains := ((List.range period).map
      (fun k => if change k > 0 then change k else 0)).sum
    let losses := ((List.range period).map
      (fun k => if change k > 0 then 0 else -(change k))).sum
    let avgGain := gains / period
    let avgLoss := losses / period
    if avgLoss = 0 then 100
    else
      let rs := avgGain / avgLoss
      100 - (100 / (1 + rs))

/-- Parameters of `SMACrossoverStrategy` (server/src/strategies/sma-crossover.ts). -/
structure SMAParams where
  shortPeriod : Nat
  longPeriod : Nat
deriving DecidableEq, Repr

/-- Embeds `SMACrossoverStrategy.analyze` (server/src/strategies/sma-crossover.ts). -/
def smaCrossoverAnalyze (p : SMAParams) (bars : List Bar) (currentIndex : Nat) :
    StrategySignal :=
  if currentIndex < p.longPeriod then
    { timestamp := (bars.getD currentIndex default).t
      action := TradeAction.hold
      confidence := 0
      reason := "Insufficient data for analysis" }
  else
    let currentShortSMA := calculateSMA bars p.shortPeriod currentIndex
    let currentLongSMA := calculateSMA bars p.longPeriod currentIndex
    let previousShortSMA := calculateSMA bars p.shortPeriod (currentIndex - 1)
    let previousLongSMA := calculateSMA bars p.longPeriod (currentIndex - 1)
    if previousShortSMA ≤ previousLongSMA ∧ currentShortSMA > currentLongSMA then
      { timestamp := (bars.getD currentIndex default).t
        action := TradeAction.buy
        confidence :=
          min (((currentShortSMA - currentLongSMA) / currentLongSMA) * 100) 1
        reason := "Bullish crossover: SMA(" ++ toString p.shortPeriod ++
          ") crossed above SMA(" ++ toString p.longPeriod ++ ")" }
    else if previousShortSMA ≥ previousLongSMA ∧ currentShortSMA < currentLongSMA then
      { timestamp := (bars.getD currentIndex default).t
        action := TradeAction.sell
        confidence :=
          min (((currentLongSMA - currentShortSMA) / currentLongSMA) * 100) 1
        reason := "Bearish crossover: SMA(" ++ toString p.shortPeriod ++
          ") crossed below SMA(" ++ toString p.longPeriod ++ ")" }
    else
      { timestamp := (bars.getD currentIndex default).t
        action := TradeAction.hold
        confidence := 0
        reason := "No crossover detected" }

/-- A strategy as the engine sees it (`IStrategy`): a name and an `analyze`
function from the bar list and the current index to a signal. -/
structure Strategy where
  name : String
  analyze : List Bar → Nat → StrategySignal

/-- Embeds `BacktestConfig` (server/src/backtest/engine.ts). The `commission`
field models the resolved `config.commission || 0` value (0 when the caller
omits it). The strategy is passed separately to `runBacktest`. -/
structure BacktestConfig where
  symbol : String
  startDate : String
  endDate : String
  initialCapital : ℚ
  commission : ℚ
deriving DecidableEq, Repr

/-- A `Trade` record as appended by `executeBuy` / `executeSell`. -/
structure Trade where
  timestamp : Nat
  action : TradeAction
  symbol : String
  quantity : ℤ
  price : ℚ
  value : ℚ
  reason : String
deriving DecidableEq, Repr

/-- An `EquityPoint` record as appended each bar by `BacktestEngine.run`. -/
structure EquityPoint where
  timestamp : Nat
  equity : ℚ
  drawdown : ℚ
deriving DecidableEq, Repr

instance : Inhabited EquityPoint := ⟨⟨0, 0, 0⟩⟩

/-- The mutable state of a `BacktestEngine` during `run`: the private fields
`capital`, `position`, `trades`, `equityCurve` together with `run`'s local
variables `peakEquity` and `maxDrawdown`. -/
structure EngineState where
  capital : ℚ
  position : ℤ
  trades : List Trade
  equityCurve : List EquityPoint
  peakEquity : ℚ
  maxDrawdown : ℚ
deriving DecidableEq, Repr

/-- The engine state right after construction and `run`'s local
initialisation: capital = initial capital, flat position, empty logs,
peak equity = initial capital, max drawdown 0. -/
def initState (cfg : BacktestConfig) : EngineState :=
  { capital := cfg.initialCapital
    position := 0
    trades := []
    equityCurve := []
    peakEquity := cfg.initialCapital
    maxDrawdown := 0 }

/-- Embeds `BacktestEngine.executeBuy`: fill quantity
`floor((capital - commission)/price)`; quantity ≤ 0 is a silent no-op;
otherwise debit `quantity*price + commission` and append a buy trade. -/
def executeBuy (cfg : BacktestConfig) (s : EngineState) (bar : Bar)
    (reason : String) : EngineState :=
  let commission := cfg.commission
  let price := bar.c
  let quantity : ℤ := ⌊(s.capital - commission) / price⌋
  if quantity ≤ 0 then s
  else
    let totalCost := (quantity : ℚ) * price + commission
    { s with
      capital := s.capital - totalCost
      position := s.position + quantity
      trades := s.trades ++
        [{ timestamp := bar.t
           action := TradeAction.buy
           symbol := cfg.symbol
           quantity := quantity
           price := price
           value := totalCost
           reason := reason }] }

/-- Embeds `BacktestEngine.executeSell`: no-op when the position is ≤ 0; otherwise
liquidate the whole position at the bar close, credit
`quantity*price - commission`, and append a sell trade. -/
def executeSell (cfg : BacktestConfig) (s : EngineState) (bar : Bar)
    (reason : String) : EngineState :=
  if s.position ≤ 0 then s
  else
    let commission := cfg.commission
    let price := bar.c
    let quantity := s.position
    let totalValue := (quantity : ℚ) * price - commission
    { s with
      capital := s.capital + totalValue
      position := 0
      trades := s.trades ++
        [{ timestamp := bar.t
           action := TradeAction.sell
           symbol := cfg.symbol
           quantity := quantity
           price := price
           value := totalValue
           reason := reason }] }

/-- Lines 43-58 of `BacktestEngine.run`: compute the current equity
(before any trade this bar), update the running peak and max drawdown, and
append the equity point. -/
def recordEquity (s : EngineState) (bar : Bar) : EngineState :=
  let currentEquity := s.capital + (s.position : ℚ) * bar.c
  let peak := if currentEquity > s.peakEquity then currentEquity else s.peakEquity
  let drawdown := (peak - currentEquity) / peak
  { s with
    peakEquity := peak
    maxDrawdown := max s.maxDrawdown drawdown
    equityCurve := s.equityCurve ++
      [{ timestamp := bar.t, equity := currentEquity, drawdown := drawdown }] }

/-- Lines 60-65 of `BacktestEngine.run`: the trade policy. Buy when the
signal is `buy`, the position is flat, and confidence > 0.5; sell when the
signal is `sell`, the position is open, and confidence > 0.5; otherwise do
nothing this bar. -/
def applySignal (cfg : BacktestConfig) (s : EngineState) (bar : Bar)
    (signal : StrategySignal) : EngineState :=
  if signal.action = TradeAction.buy ∧ s.position = 0 ∧ signal.confidence > 1/2 then
    executeBuy cfg s bar "Strategy signal"
  else if signal.action = TradeAction.sell ∧ s.position > 0 ∧
      signal.confidence > 1/2 then
    executeSell cfg s bar "Strategy signal"
  else s

/-- One iteration of `run`'s bar loop at index `i`. -/
def stepBar (cfg : BacktestConfig) (strat : Strategy) (bars : List Bar)
    (s : EngineState) (i : Nat) : EngineState :=
  let bar := bars.getD i default
  let signal := strat.analyze bars i
  applySignal cfg (recordEquity s bar) bar signal

/-- The state after the whole bar loop, starting from `s0`. -/
def loopFrom (cfg : BacktestConfig) (strat : Strategy) (bars : List Bar)
    (s0 : EngineState) : EngineState :=
  (List.range bars.length).foldl (stepBar cfg strat bars) s0

/-- Lines 68-72 of `run`: force-liquidate any remaining position at the last
bar's close with reason "End of backtest". -/
def closeOut (cfg : BacktestConfig) (s : EngineState) (bars : List Bar) :
    EngineState :=
  if s.position > 0 then executeSell cfg s (bars.getLastD default) "End of backtest"
  else s

/-- The price of the last trade, or 0 with no trades
(`this.trades[this.trades.length - 1]?.price || 0`). -/
def lastTradePriceOrZero (trades : List Trade) : ℚ :=
  match trades.getLast? with
  | some t => t.price
  | none => 0

/-- Embeds `Math.max(...l)` over a nonempty list (the engine only applies it to the
nonempty equity curve; on `[]` JS would give -Infinity, modelled here as 0). -/
def listMax : List ℚ → ℚ
  | [] => 0
  | x :: xs => xs.foldl max x

/-- Per-bar simple returns of the equity curve
(0 at index 0, else `(e_i - e_{i-1}) / e_{i-1}`). -/
def barReturns (curve : List EquityPoint) : List ℚ :=
  (List.range curve.length).map fun i =>
    if i = 0 then 0
    else
      ((curve.getD i default).equity - (curve.getD (i - 1) default).equity) /
        (curve.getD (i - 1) default).equity

/-- The win/loss pairing of `generateReport`: the i-th sell trade against the
i-th buy trade; a pair is winning when `sell.value - buy.value > 0`. -/
def winLossCounts (trades : List Trade) : Nat × Nat :=
  let buyTrades := trades.filter (fun t => t.action = TradeAction.buy)
  let sellTrades := trades.filter (fun t => t.action = TradeAction.sell)
  let profits := (buyTrades.zip sellTrades).map (fun bs => bs.2.value - bs.1.value)
  (profits.countP (fun pr => pr > 0), profits.countP (fun pr => ¬ pr > 0))

/-- The `BacktestResult` record (§3 of the spec / server/src/types). The
source's `sharpe_ratio = avgReturn/stdDev * sqrt(252)` involves irrational
square roots; the rational components that determine it (`avgReturn` and the
variance of per-bar returns) are carried instead as `sharpe_avg_return` and
`sharpe_variance`. -/
structure BacktestResult where
  strategy_id : String
  symbol : String
  start_date : String
  end_date : String
  initial_capital : ℚ
  final_capital : ℚ
  total_return : ℚ
  total_return_pct : ℚ
  sharpe_avg_return : ℚ
  sharpe_variance : ℚ
  max_drawdown : ℚ
  total_trades : Nat
  winning_trades : Nat
  losing_trades : Nat
  win_rate : ℚ
  trades : List Trade
  equity_curve : List EquityPoint
deriving DecidableEq, Repr

/-- Embeds `BacktestEngine.generateReport`. -/
def generateReport (cfg : BacktestConfig) (strat : Strategy)
    (s : EngineState) : BacktestResult :=
  let finalEquity := s.capital + (s.position : ℚ) * lastTradePriceOrZero s.trades
  let totalReturn := finalEquity - cfg.initialCapital
  let totalReturnPct := (totalReturn / cfg.initialCapital) * 100
  let returns := barReturns s.equityCurve
  let avgReturn := returns.sum / (returns.length : ℚ)
  let variance :=
    ((returns.map (fun r => (r - avgReturn) ^ 2)).sum) / (returns.length : ℚ)
  let wl := winLossCounts s.trades
  let totalWL := wl.1 + wl.2
  let winRate : ℚ := if totalWL > 0 then ((wl.1 : ℚ) / totalWL) * 100 else 0
  { strategy_id := strat.name
    symbol := cfg.symbol
    start_date := cfg.startDate
    end_date := cfg.endDate
    initial_capital := cfg.initialCapital
    final_capital := finalEquity
    total_return := totalReturn
    total_return_pct := totalReturnPct
    sharpe_avg_return := avgReturn
    sharpe_variance := variance
    max_drawdown := listMax (s.equityCurve.map (fun p => p.drawdown))
    total_trades := s.trades.length
    winning_trades := wl.1
    losing_trades := wl.2
    win_rate := winRate
    trades := s.trades
    equity_curve := s.equityCurve }

/-- Embeds `BacktestEngine.run` from an explicit engine state (the state a freshly
constructed engine holds is `initState cfg`): throw on an empty bar list,
else loop over all bars, close out, and build the report. -/
def runFromState (cfg : BacktestConfig) (strat : Strategy)
    (s0 : EngineState) (bars : List Bar) : Except String BacktestResult :=
  if bars.length = 0 then Except.error "No bars provided for backtest"
  else
    Except.ok (generateReport cfg strat
      (closeOut cfg (loopFrom cfg strat bars s0) bars))

/-- Constructing a fresh `BacktestEngine` on `cfg` and calling `run bars`. -/
def runBacktest (cfg : BacktestConfig) (strat : Strategy) (bars : List Bar) :
    Except String BacktestResult :=
  runFromState cfg strat (initState cfg) bars

/-!
Model of the strategy registry (server/src/strategies/index.ts). The
TypeScript `strategies` object maps string ids to strategy object
references; `getStrategy(name, params)` returns `strategies[name]` itself
(no copy) and, when `params` is given, assigns a merged parameter object
into that shared instance. Aliasing is modelled by keeping the registry as
explicit state: writing the merged parameters back into the registry entry
models the in-place mutation of the shared object, and returning the same
record as the updated entry models returning the shared reference.
-/

/-- The parameter bag of a registry strategy (`parameters: Record<string, any>`;
the two concrete strategies hold numeric parameters). -/
abbrev StratParams := List (String × ℚ)

/-- A registry entry: the observable data of a strategy instance. -/
structure RegistryStrategy where
  name : String
  parameters : StratParams
deriving DecidableEq, Repr

/-- The registry state: association of strategy ids to instances. -/
abbrev Registry := List (String × RegistryStrategy)

/-- JS object spread `{ ...base, ...override }`: every key of `override`
wins; keys only in `base` keep their value. -/
def mergeParams (base override : StratParams) : StratParams :=
  base.filter (fun kv => (override.lookup kv.1).isNone) ++ override

/-- Embeds `getStrategy(name, params?)`: `null` for an unknown id; otherwise return
the shared instance, first assigning the merged parameters into it when
`params` is present. Returns the looked-up (possibly mutated) instance and
the registry state after the call. -/
def getStrategy (reg : Registry) (name : String) (params : Option StratParams) :
    Option RegistryStrategy × Registry :=
  match reg.lookup name with
  | none => (none, reg)
  | some strat =>
    match params with
    | none => (some strat, reg)
    | some p =>
      let strat2 : RegistryStrategy :=
        { strat with parameters := mergeParams strat.parameters p }
      (some strat2, reg.map (fun kv => if kv.1 = name then (kv.1, strat2) else kv))

/-- The registry as initialised at module load: a fresh
`SMACrossoverStrategy` (shortPeriod 10, longPeriod 30) and a fresh
`RSIStrategy` (period 14, oversold 30, overbought 70). -/
def initialRegistry : Registry :=
  [("sma-crossover",
    { name := "SMA Crossover"
      parameters := [("shortPeriod", 10), ("longPeriod", 30)] }),
   ("rsi",
    { name := "RSI Strategy"
      parameters := [("period", 14), ("oversoldLevel", 30), ("overboughtLevel", 70)] })]

section HelperLemmas

@[simp] theorem recordEquity_capital (s : EngineState) (bar : Bar) :
    (recordEquity s bar).capital = s.capital := rfl

@[simp] theorem recordEquity_position (s : EngineState) (bar : Bar) :
    (recordEquity s bar).position = s.position := rfl

@[simp] theorem recordEquity_trades (s : EngineState) (bar : Bar) :
    (recordEquity s bar).trades = s.trades := rfl

@[simp] theorem executeBuy_equityCurve (cfg : BacktestConfig) (s : EngineState)
    (bar : Bar) (r : String) :
    (executeBuy cfg s bar r).equityCurve = s.equityCurve := by
  simp only [executeBuy]
  split <;> rfl

@[simp] theorem executeSell_equityCurve (cfg : BacktestConfig) (s : EngineState)
    (bar : Bar) (r : String) :
    (executeSell cfg s bar r).equityCurve = s.equityCurve := by
  simp only [executeSell]
  split <;> rfl

@[simp] theorem applySignal_equityCurve (cfg : BacktestConfig) (s : EngineState)
    (bar : Bar) (signal : StrategySignal) :
    (applySignal cfg s bar signal).equityCurve = s.equityCurve := by
  simp only [applySignal]
  split_ifs <;> simp

@[simp] theorem stepBar_equityCurve (cfg : BacktestConfig) (strat : Strategy)
    (bars : List Bar) (s : EngineState) (i : Nat) :
    (stepBar cfg strat bars s i).equityCurve =
      s.equityCurve ++
        [{ timestamp := (bars.getD i default).t
           equity := s.capital + (s.position : ℚ) * (bars.getD i default).c
           drawdown :=
             ((if s.capital + (s.position : ℚ) * (bars.getD i default).c >
                   s.peakEquity then
                 s.capital + (s.position : ℚ) * (bars.getD i default).c
               else s.peakEquity) -
               (s.capital + (s.position : ℚ) * (bars.getD i default).c)) /
             (if s.capital + (s.position : ℚ) * (bars.getD i default).c >
                   s.peakEquity then
                 s.capital + (s.position : ℚ) * (bars.getD i default).c
               else s.peakEquity) }] := by
  unfold stepBar
  rw [applySignal_equityCurve]
  rfl

theorem executeBuy_of_nonpos (cfg : BacktestConfig) (s : EngineState) (bar : Bar)
    (r : String) (h : ⌊(s.capital - cfg.commission) / bar.c⌋ ≤ 0) :
    executeBuy cfg s bar r = s := by
  simp only [executeBuy]
  rw [if_pos h]

theorem executeBuy_of_one_le (cfg : BacktestConfig) (s : EngineState) (bar : Bar)
    (r : String) (h : 1 ≤ ⌊(s.capital - cfg.commission) / bar.c⌋) :
    executeBuy cfg s bar r =
      { s with
        capital := s.capital -
          ((⌊(s.capital - cfg.commission) / bar.c⌋ : ℚ) * bar.c + cfg.commission)
        position := s.position + ⌊(s.capital - cfg.commission) / bar.c⌋
        trades := s.trades ++
          [{ timestamp := bar.t
             action := TradeAction.buy
             symbol := cfg.symbol
             quantity := ⌊(s.capital - cfg.commission) / bar.c⌋
             price := bar.c
             value :=
               (⌊(s.capital - cfg.commission) / bar.c⌋ : ℚ) * bar.c + cfg.commission
             reason := r }] } := by
  simp only [executeBuy]
  rw [if_neg (by omega)]

theorem executeSell_of_nonpos (cfg : BacktestConfig) (s : EngineState) (bar : Bar)
    (r : String) (h : s.position ≤ 0) :
    executeSell cfg s bar r = s := by
  simp only [executeSell]
  rw [if_pos h]

theorem executeSell_of_pos (cfg : BacktestConfig) (s : EngineState) (bar : Bar)
    (r : String) (h : 0 < s.position) :
    executeSell cfg s bar r =
      { s with
        capital := s.capital + ((s.position : ℚ) * bar.c - cfg.commission)
        position := 0
        trades := s.trades ++
          [{ timestamp := bar.t
             action := TradeAction.sell
             symbol := cfg.symbol
             quantity := s.position
             price := bar.c
             value := (s.position : ℚ) * bar.c - cfg.commission
             reason := r }] } := by
  simp only [executeSell]
  rw [if_neg (by omega)]

theorem executeBuy_position_nonneg (cfg : BacktestConfig) (s : EngineState)
    (bar : Bar) (r : String) (hs : 0 ≤ s.position) :
    0 ≤ (executeBuy cfg s bar r).position := by
  by_cases h : ⌊(s.capital - cfg.commission) / bar.c⌋ ≤ 0
  · rw [executeBuy_of_nonpos cfg s bar r h]; exact hs
  · rw [executeBuy_of_one_le cfg s bar r (by omega)]
    simp only
    omega

theorem executeSell_position_nonneg (cfg : BacktestConfig) (s : EngineState)
    (bar : Bar) (r : String) (hs : 0 ≤ s.position) :
    0 ≤ (executeSell cfg s bar r).position := by
  by_cases h : s.position ≤ 0
  · rw [executeSell_of_nonpos cfg s bar r h]; exact hs
  · rw [executeSell_of_pos cfg s bar r (by omega)]

theorem stepBar_position_nonneg (cfg : BacktestConfig) (strat : Strategy)
    (bars : List Bar) (s : EngineState) (i : Nat) (hs : 0 ≤ s.position) :
    0 ≤ (stepBar cfg strat bars s i).position := by
  simp only [stepBar, applySignal]
  split_ifs
  · exact executeBuy_position_nonneg _ _ _ _ (by simpa using hs)
  · exact executeSell_position_nonneg _ _ _ _ (by simpa using hs)
  · simpa using hs

theorem foldl_stepBar_position_nonneg (cfg : BacktestConfig) (strat : Strategy)
    (bars : List Bar) (l : List Nat) (s : EngineState) (hs : 0 ≤ s.position) :
    0 ≤ (l.foldl (stepBar cfg strat bars) s).position := by
  induction l generalizing s with
  | nil => exact hs
  | cons a t ih =>
    exact ih _ (stepBar_position_nonneg cfg strat bars s a hs)

/-- Each bar either leaves capital, position and trade log unchanged, or
appends exactly one trade. -/
theorem stepBar_cases (cfg : BacktestConfig) (strat : Strategy)
    (bars : List Bar) (s : EngineState) (i : Nat) :
    ((stepBar cfg strat bars s i).capital = s.capital ∧
     (stepBar cfg strat bars s i).position = s.position ∧
     (stepBar cfg strat bars s i).trades = s.trades) ∨
    (∃ tr, (stepBar cfg strat bars s i).trades = s.trades ++ [tr]) := by
  simp only [stepBar, applySignal]
  split_ifs
  · by_cases h : ⌊((recordEquity s (bars.getD i default)).capital -
        cfg.commission) / (bars.getD i default).c⌋ ≤ 0
    · left
      rw [executeBuy_of_nonpos _ _ _ _ h]
      simp
    · right
      rw [executeBuy_of_one_le _ _ _ _ (by omega)]
      exact ⟨_, rfl⟩
  · rename_i hbuy hsell
    right
    rw [executeSell_of_pos _ _ _ _ (by simpa using hsell.2.1)]
    exact ⟨_, rfl⟩
  · left
    simp

/-- The per-run trade-log invariant: an empty trade log means the capital is
still the initial capital and the position is still flat. -/
def NoTradeInv (cfg : BacktestConfig) (s : EngineState) : Prop :=
  s.trades = [] → s.capital = cfg.initialCapital ∧ s.position = 0

theorem stepBar_noTradeInv (cfg : BacktestConfig) (strat : Strategy)
    (bars : List Bar) (s : EngineState) (i : Nat) (hs : NoTradeInv cfg s) :
    NoTradeInv cfg (stepBar cfg strat bars s i) := by
  intro hnil
  rcases stepBar_cases cfg strat bars s i with ⟨hc, hp, ht⟩ | ⟨tr, ht⟩
  · rw [ht] at hnil
    exact ⟨hc.trans (hs hnil).1, hp.trans (hs hnil).2⟩
  · rw [ht] at hnil
    exact absurd hnil (by simp)

theorem foldl_stepBar_noTradeInv (cfg : BacktestConfig) (strat : Strategy)
    (bars : List Bar) (l : List Nat) (s : EngineState) (hs : NoTradeInv cfg s) :
    NoTradeInv cfg (l.foldl (stepBar cfg strat bars) s) := by
  induction l generalizing s with
  | nil => exact hs
  | cons a t ih =>
    exact ih _ (stepBar_noTradeInv cfg strat bars s a hs)

theorem foldl_stepBar_equityCurve_length (cfg : BacktestConfig) (strat : Strategy)
    (bars : List Bar) (l : List Nat) (s : EngineState) :
    (l.foldl (stepBar cfg strat bars) s).equityCurve.length =
      s.equityCurve.length + l.length := by
  induction l generalizing s with
  | nil => simp
  | cons a t ih =>
    rw [List.foldl_cons, ih]
    simp only [stepBar_equityCurve, List.length_append, List.length_cons,
      List.length_nil, List.length_cons]
    omega

theorem loopFrom_equityCurve_length (cfg : BacktestConfig) (strat : Strategy)
    (bars : List Bar) (s : EngineState) :
    (loopFrom cfg strat bars s).equityCurve.length =
      s.equityCurve.length + bars.length := by
  rw [loopFrom, foldl_stepBar_equityCurve_length]
  simp

@[simp] theorem closeOut_equityCurve (cfg : BacktestConfig) (s : EngineState)
    (bars : List Bar) :
    (closeOut cfg s bars).equityCurve = s.equityCurve := by
  simp only [closeOut]
  split <;> simp

theorem stepBar_eq_buy (cfg : BacktestConfig) (strat : Strategy) (bars : List Bar)
    (s : EngineState) (i : Nat)
    (hb : (strat.analyze bars i).action = TradeAction.buy)
    (hp : s.position = 0)
    (hc : (strat.analyze bars i).confidence > 1/2) :
    stepBar cfg strat bars s i =
      executeBuy cfg (recordEquity s (bars.getD i default)) (bars.getD i default)
        "Strategy signal" := by
  simp only [stepBar, applySignal]
  rw [if_pos ⟨hb, by rw [recordEquity_position]; exact hp, hc⟩]

theorem stepBar_eq_sell (cfg : BacktestConfig) (strat : Strategy) (bars : List Bar)
    (s : EngineState) (i : Nat)
    (hb : (strat.analyze bars i).action = TradeAction.sell)
    (hp : s.position > 0)
    (hc : (strat.analyze bars i).confidence > 1/2) :
    stepBar cfg strat bars s i =
      executeSell cfg (recordEquity s (bars.getD i default)) (bars.getD i default)
        "Strategy signal" := by
  simp only [stepBar, applySignal]
  rw [if_neg (fun h => by rw [hb] at h; exact absurd h.1 (by simp)),
    if_pos ⟨hb, by rw [recordEquity_position]; exact hp, hc⟩]

theorem stepBar_eq_noop (cfg : BacktestConfig) (strat : Strategy) (bars : List Bar)
    (s : EngineState) (i : Nat)
    (hb : ¬((strat.analyze bars i).action = TradeAction.buy ∧ s.position = 0 ∧
        (strat.analyze bars i).confidence > 1/2))
    (hs : ¬((strat.analyze bars i).action = TradeAction.sell ∧ s.position > 0 ∧
        (strat.analyze bars i).confidence > 1/2)) :
    stepBar cfg strat bars s i = recordEquity s (bars.getD i default) := by
  simp only [stepBar, applySignal]
  rw [if_neg (fun h => hb ⟨h.1, by rw [← recordEquity_position s (bars.getD i default)]; exact h.2.1, h.2.2⟩),
    if_neg (fun h => hs ⟨h.1, by rw [← recordEquity_position s (bars.getD i default)]; exact h.2.1, h.2.2⟩)]

end HelperLemmas

/-- C1: at each bar, a buy executes exactly when the signal action is `buy`,
the position is 0, confidence > 0.5, and the fill quantity
`floor((cash - commission)/close)` is ≥ 1; it then debits
`quantity*close + commission` from cash and credits the quantity to the
position. A sell executes exactly when the action is `sell`, the position
is > 0, and confidence > 0.5, liquidating the whole position at the close
and crediting `quantity*close - commission`. Every other signal/position
combination, including a buy whose computed quantity is ≤ 0, leaves cash,
position and trade log unchanged, and at most one trade is appended per
bar. -/
theorem trade_policy_per_bar (cfg : BacktestConfig) (strat : Strategy)
    (bars : List Bar) (s : EngineState) (i : Nat) :
    (((strat.analyze bars i).action = TradeAction.buy ∧ s.position = 0 ∧
        (strat.analyze bars i).confidence > 1/2 ∧
        1 ≤ ⌊(s.capital - cfg.commission) / (bars.getD i default).c⌋) →
      (stepBar cfg strat bars s i).position =
        s.position + ⌊(s.capital - cfg.commission) / (bars.getD i default).c⌋ ∧
      (stepBar cfg strat bars s i).capital =
        s.capital - ((⌊(s.capital - cfg.commission) / (bars.getD i default).c⌋ : ℚ) *
          (bars.getD i default).c + cfg.commission) ∧
      (stepBar cfg strat bars s i).trades = s.trades ++
        [{ timestamp := (bars.getD i default).t
           action := TradeAction.buy
           symbol := cfg.symbol
           quantity := ⌊(s.capital - cfg.commission) / (bars.getD i default).c⌋
           price := (bars.getD i default).c
           value := (⌊(s.capital - cfg.commission) / (bars.getD i default).c⌋ : ℚ) *
             (bars.getD i default).c + cfg.commission
           reason := "Strategy signal" }]) ∧
    (((strat.analyze bars i).action = TradeAction.sell ∧ s.position > 0 ∧
        (strat.analyze bars i).confidence > 1/2) →
      (stepBar cfg strat bars s i).position = 0 ∧
      (stepBar cfg strat bars s i).capital =
        s.capital + ((s.position : ℚ) * (bars.getD i default).c - cfg.commission) ∧
      (stepBar cfg strat bars s i).trades = s.trades ++
        [{ timestamp := (bars.getD i default).t
           action := TradeAction.sell
           symbol := cfg.symbol
           quantity := s.position
           price := (bars.getD i default).c
           value := (s.position : ℚ) * (bars.getD i default).c - cfg.commission
           reason := "Strategy signal" }]) ∧
    ((¬(((strat.analyze bars i).action = TradeAction.buy ∧ s.position = 0 ∧
          (strat.analyze bars i).confidence > 1/2 ∧
          1 ≤ ⌊(s.capital - cfg.commission) / (bars.getD i default).c⌋) ∨
        ((strat.analyze bars i).action = TradeAction.sell ∧ s.position > 0 ∧
          (strat.analyze bars i).confidence > 1/2))) →
      (stepBar cfg strat bars s i).capital = s.capital ∧
      (stepBar cfg strat bars s i).position = s.position ∧
      (stepBar cfg strat bars s i).trades = s.trades) ∧
    (stepBar cfg strat bars s i).trades.length ≤ s.trades.length + 1 := by
  refine ⟨?_, ?_, ?_, ?_⟩
  · rintro ⟨hb, hp, hc, hq⟩
    rw [stepBar_eq_buy cfg strat bars s i hb hp hc]
    have hq2 : 1 ≤ ⌊((recordEquity s (bars.getD i default)).capital -
        cfg.commission) / (bars.getD i default).c⌋ := by
      rw [recordEquity_capital]; exact hq
    rw [executeBuy_of_one_le _ _ _ _ hq2]
    refine ⟨?_, ?_, ?_⟩ <;>
      simp [recordEquity_capital, recordEquity_position, recordEquity_trades]
  · rintro ⟨hb, hp, hc⟩
    rw [stepBar_eq_sell cfg strat bars s i hb hp hc]
    have hp2 : 0 < (recordEquity s (bars.getD i default)).position := by
      rw [recordEquity_position]; exact hp
    rw [executeSell_of_pos _ _ _ _ hp2]
    refine ⟨rfl, ?_, ?_⟩ <;>
      simp [recordEquity_capital, recordEquity_position, recordEquity_trades]
  · intro hno
    by_cases hb : (strat.analyze bars i).action = TradeAction.buy ∧ s.position = 0 ∧
        (strat.analyze bars i).confidence > 1/2
    · have hq : ⌊(s.capital - cfg.commission) / (bars.getD i default).c⌋ ≤ 0 := by
        by_contra hq
        exact hno (Or.inl ⟨hb.1, hb.2.1, hb.2.2, by omega⟩)
      rw [stepBar_eq_buy cfg strat bars s i hb.1 hb.2.1 hb.2.2]
      have hq2 : ⌊((recordEquity s (bars.getD i default)).capital -
          cfg.commission) / (bars.getD i default).c⌋ ≤ 0 := by
        rw [recordEquity_capital]; exact hq
      rw [executeBuy_of_nonpos _ _ _ _ hq2]
      exact ⟨rfl, rfl, rfl⟩
    · by_cases hs : (strat.analyze bars i).action = TradeAction.sell ∧
          s.position > 0 ∧ (strat.analyze bars i).confidence > 1/2
      · exact absurd (Or.inr hs) hno
      · rw [stepBar_eq_noop cfg strat bars s i hb hs]
        exact ⟨rfl, rfl, rfl⟩
  · rcases stepBar_cases cfg strat bars s i with ⟨_, _, ht⟩ | ⟨tr, ht⟩ <;>
      rw [ht] <;> simp

/-! Concrete fixtures used by witness theorems. -/

/-- A stub strategy that always signals `buy` with confidence 1. -/
def alwaysBuyStrat : Strategy :=
  { name := "always-buy"
    analyze := fun bars i =>
      { timestamp := (bars.getD i default).t
        action := TradeAction.buy
        confidence := 1
        reason := "stub" } }

/-- A stub strategy that always signals `hold` with confidence 0. -/
def alwaysHoldStrat : Strategy :=
  { name := "always-hold"
    analyze := fun bars i =>
      { timestamp := (bars.getD i default).t
        action := TradeAction.hold
        confidence := 0
        reason := "stub" } }

/-- A concrete valid configuration: 1000 initial capital, no commission. -/
def cfgW : BacktestConfig :=
  { symbol := "TEST"
    startDate := "2024-01-01"
    endDate := "2024-01-31"
    initialCapital := 1000
    commission := 0 }

/-- A concrete bar with close 100. -/
def barW : Bar := { t := 1, o := 100, hi := 100, lo := 100, c := 100, v := 0 }

/-- Witness for `trade_policy_per_bar`: an always-buy strategy with ample
cash executes the buy on bar 0, crediting the fill quantity to the flat
position. -/
theorem trade_policy_per_bar_witness :
    (stepBar cfgW alwaysBuyStrat [barW] (initState cfgW) 0).position =
      (initState cfgW).position +
        ⌊((initState cfgW).capital - cfgW.commission) /
          (([barW] : List Bar).getD 0 default).c⌋ :=
  ((trade_policy_per_bar cfgW alwaysBuyStrat [barW] (initState cfgW) 0).1
    (by
      refine ⟨by norm_num [alwaysBuyStrat, barW], by norm_num [initState, cfgW],
        by norm_num [alwaysBuyStrat, barW], ?_⟩
      norm_num [initState, cfgW, barW])).1

/-- C10: throughout every run the position is ≥ 0, and, when the bar close
is > 0 and the commission is ≥ 0, a buy that executes debits a total
`quantity*price + commission` that never exceeds the cash available, so cash
stays ≥ 0 after every buy execution. -/
theorem engine_cash_position_invariants (cfg : BacktestConfig) (strat : Strategy)
    (bars : List Bar) :
    (∀ n : Nat,
      0 ≤ ((List.range n).foldl (stepBar cfg strat bars) (initState cfg)).position) ∧
    (∀ (s : EngineState) (bar : Bar) (r : String),
      0 < bar.c → 0 ≤ cfg.commission →
      1 ≤ ⌊(s.capital - cfg.commission) / bar.c⌋ →
      (⌊(s.capital - cfg.commission) / bar.c⌋ : ℚ) * bar.c + cfg.commission ≤
        s.capital ∧
      0 ≤ (executeBuy cfg s bar r).capital) := by
  constructor
  · intro n
    exact foldl_stepBar_position_nonneg cfg strat bars (List.range n)
      (initState cfg) (by simp [initState])
  · intro s bar r hprice hcomm hq
    have hfl : (⌊(s.capital - cfg.commission) / bar.c⌋ : ℚ) ≤
        (s.capital - cfg.commission) / bar.c := Int.floor_le _
    have hmul : (⌊(s.capital - cfg.commission) / bar.c⌋ : ℚ) * bar.c ≤
        s.capital - cfg.commission := by
      rw [← le_div_iff₀ hprice]
      exact hfl
    refine ⟨by linarith, ?_⟩
    rw [executeBuy_of_one_le cfg s bar r hq]
    simp only
    linarith

/-- Witness for `engine_cash_position_invariants`: with 1000 cash, close 100
and commission 0, the debited total 1000 does not exceed the cash, and cash
is 0 (hence ≥ 0) after the buy. -/
theorem engine_cash_position_invariants_witness :
    (⌊((initState cfgW).capital - cfgW.commission) / barW.c⌋ : ℚ) * barW.c +
        cfgW.commission ≤ (initState cfgW).capital ∧
      0 ≤ (executeBuy cfgW (initState cfgW) barW "Strategy signal").capital :=
  (engine_cash_position_invariants cfgW alwaysHoldStrat []).2 (initState cfgW)
    barW "Strategy signal" (by norm_num [barW]) (by norm_num [cfgW])
    (by norm_num [initState, cfgW, barW])

/-- C2: on every non-empty run, any position still open after the last bar
is force-liquidated at the last bar's close with reason "End of backtest",
so the position is 0 when the report is built; `final_capital` is literally
`cash + position * lastTradePrice` recomputed on that closed-out state, and
with no trades at all it equals the initial capital. -/
theorem end_of_run_close_out (cfg : BacktestConfig) (strat : Strategy)
    (bars : List Bar) (hne : bars ≠ []) :
    ∃ res, runBacktest cfg strat bars = Except.ok res ∧
      (closeOut cfg (loopFrom cfg strat bars (initState cfg)) bars).position = 0 ∧
      ((loopFrom cfg strat bars (initState cfg)).position > 0 →
        (closeOut cfg (loopFrom cfg strat bars (initState cfg)) bars).trades =
          (loopFrom cfg strat bars (initState cfg)).trades ++
            [{ timestamp := (bars.getLastD default).t
               action := TradeAction.sell
               symbol := cfg.symbol
               quantity := (loopFrom cfg strat bars (initState cfg)).position
               price := (bars.getLastD default).c
               value := ((loopFrom cfg strat bars (initState cfg)).position : ℚ) *
                 (bars.getLastD default).c - cfg.commission
               reason := "End of backtest" }]) ∧
      res.final_capital =
        (closeOut cfg (loopFrom cfg strat bars (initState cfg)) bars).capital +
          ((closeOut cfg (loopFrom cfg strat bars (initState cfg)) bars).position : ℚ) *
            lastTradePriceOrZero
              (closeOut cfg (loopFrom cfg strat bars (initState cfg)) bars).trades ∧
      (res.trades = [] → res.final_capital = cfg.initialCapital) := by
  have hlen : ¬ bars.length = 0 := by
    intro h
    exact hne (List.eq_nil_of_length_eq_zero h)
  refine ⟨generateReport cfg strat
    (closeOut cfg (loopFrom cfg strat bars (initState cfg)) bars), ?_, ?_, ?_, rfl, ?_⟩
  · simp only [runBacktest, runFromState]
    rw [if_neg hlen]
  · have hpos : 0 ≤ (loopFrom cfg strat bars (initState cfg)).position :=
      foldl_stepBar_position_nonneg cfg strat bars _ _ (by simp [initState])
    by_cases h : (loopFrom cfg strat bars (initState cfg)).position > 0
    · rw [closeOut, if_pos h, executeSell_of_pos _ _ _ _ h]
    · rw [closeOut, if_neg h]
      omega
  · intro h
    rw [closeOut, if_pos h, executeSell_of_pos _ _ _ _ h]
  · intro htr
    have htr2 : (closeOut cfg (loopFrom cfg strat bars (initState cfg)) bars).trades
        = [] := htr
    have hnoclose : ¬ (loopFrom cfg strat bars (initState cfg)).position > 0 := by
      intro h
      rw [closeOut, if_pos h, executeSell_of_pos _ _ _ _ h] at htr2
      simp at htr2
    have hco : closeOut cfg (loopFrom cfg strat bars (initState cfg)) bars =
        loopFrom cfg strat bars (initState cfg) := by
      rw [closeOut, if_neg hnoclose]
    rw [hco] at htr2
    have hinv : NoTradeInv cfg (loopFrom cfg strat bars (initState cfg)) :=
      foldl_stepBar_noTradeInv cfg strat bars _ _ (by intro _; simp [initState])
    rcases hinv htr2 with ⟨hcap, hposz⟩
    show (generateReport cfg strat _).final_capital = cfg.initialCapital
    simp only [generateReport, hco]
    rw [hcap, hposz, htr2]
    simp [lastTradePriceOrZero]

/-- Witness for `end_of_run_close_out` at a concrete one-bar run. -/
theorem end_of_run_close_out_witness :
    ∃ res, runBacktest cfgW alwaysHoldStrat [barW] = Except.ok res ∧
      (closeOut cfgW (loopFrom cfgW alwaysHoldStrat [barW] (initState cfgW))
        [barW]).position = 0 ∧
      ((loopFrom cfgW alwaysHoldStrat [barW] (initState cfgW)).position > 0 →
        (closeOut cfgW (loopFrom cfgW alwaysHoldStrat [barW] (initState cfgW))
          [barW]).trades =
          (loopFrom cfgW alwaysHoldStrat [barW] (initState cfgW)).trades ++
            [{ timestamp := (([barW] : List Bar).getLastD default).t
               action := TradeAction.sell
               symbol := cfgW.symbol
               quantity := (loopFrom cfgW alwaysHoldStrat [barW] (initState cfgW)).position
               price := (([barW] : List Bar).getLastD default).c
               value := ((loopFrom cfgW alwaysHoldStrat [barW] (initState cfgW)).position : ℚ) *
                 (([barW] : List Bar).getLastD default).c - cfgW.commission
               reason := "End of backtest" }]) ∧
      res.final_capital =
        (closeOut cfgW (loopFrom cfgW alwaysHoldStrat [barW] (initState cfgW))
          [barW]).capital +
          ((closeOut cfgW (loopFrom cfgW alwaysHoldStrat [barW] (initState cfgW))
            [barW]).position : ℚ) *
            lastTradePriceOrZero
              (closeOut cfgW (loopFrom cfgW alwaysHoldStrat [barW] (initState cfgW))
                [barW]).trades ∧
      (res.trades = [] → res.final_capital = cfgW.initialCapital) :=
  end_of_run_close_out cfgW alwaysHoldStrat [barW] (by simp)

/-- C3: on every non-empty run exactly one equity point is appended per
input bar, so the returned equity curve has the same length as the bar
sequence; the point appended at bar `i` has equity `cash + position*close i`
taken before that bar's trade (trades never touch the curve), and drawdown
`(peak - equity)/peak` for the running peak. -/
theorem equity_curve_shape (cfg : BacktestConfig) (strat : Strategy)
    (bars : List Bar) (hne : bars ≠ []) :
    ∃ res, runBacktest cfg strat bars = Except.ok res ∧
      res.equity_curve.length = bars.length ∧
      (∀ (s : EngineState) (i : Nat),
        (stepBar cfg strat bars s i).equityCurve = s.equityCurve ++
          [{ timestamp := (bars.getD i default).t
             equity := s.capital + (s.position : ℚ) * (bars.getD i default).c
             drawdown :=
               (max s.peakEquity
                  (s.capital + (s.position : ℚ) * (bars.getD i default).c) -
                 (s.capital + (s.position : ℚ) * (bars.getD i default).c)) /
               max s.peakEquity
                 (s.capital + (s.position : ℚ) * (bars.getD i default).c) }]) ∧
      (∀ (s : EngineState) (bar : Bar) (signal : StrategySignal),
        (applySignal cfg s bar signal).equityCurve = s.equityCurve) := by
  have hlen : ¬ bars.length = 0 := by
    intro h
    exact hne (List.eq_nil_of_length_eq_zero h)
  refine ⟨generateReport cfg strat
    (closeOut cfg (loopFrom cfg strat bars (initState cfg)) bars), ?_, ?_, ?_, ?_⟩
  · simp only [runBacktest, runFromState]
    rw [if_neg hlen]
  · show (closeOut cfg (loopFrom cfg strat bars (initState cfg)) bars).equityCurve.length
      = bars.length
    rw [closeOut_equityCurve, loopFrom_equityCurve_length]
    simp [initState]
  · intro s i
    rw [stepBar_equityCurve]
    have hmax : (if s.capital + (s.position : ℚ) * (bars.getD i default).c >
          s.peakEquity then
        s.capital + (s.position : ℚ) * (bars.getD i default).c
      else s.peakEquity) =
        max s.peakEquity (s.capital + (s.position : ℚ) * (bars.getD i default).c) := by
      rcases le_or_lt (s.capital + (s.position : ℚ) * (bars.getD i default).c)
          s.peakEquity with h | h
      · rw [if_neg (by exact not_lt.2 h), max_eq_left h]
      · rw [if_pos h, max_eq_right h.le]
    rw [hmax]
  · exact fun s bar signal => applySignal_equityCurve cfg s bar signal

/-- Witness for `equity_curve_shape` at a concrete one-bar run. -/
theorem equity_curve_shape_witness :
    ∃ res, runBacktest cfgW alwaysBuyStrat [barW] = Except.ok res ∧
      res.equity_curve.length = ([barW] : List Bar).length ∧
      (∀ (s : EngineState) (i : Nat),
        (stepBar cfgW alwaysBuyStrat [barW] s i).equityCurve = s.equityCurve ++
          [{ timestamp := (([barW] : List Bar).getD i default).t
             equity := s.capital + (s.position : ℚ) *
               (([barW] : List Bar).getD i default).c
             drawdown :=
               (max s.peakEquity
                  (s.capital + (s.position : ℚ) *
                    (([barW] : List Bar).getD i default).c) -
                 (s.capital + (s.position : ℚ) *
                   (([barW] : List Bar).getD i default).c)) /
               max s.peakEquity
                 (s.capital + (s.position : ℚ) *
                   (([barW] : List Bar).getD i default).c) }]) ∧
      (∀ (s : EngineState) (bar : Bar) (signal : StrategySignal),
        (applySignal cfgW s bar signal).equityCurve = s.equityCurve) :=
  equity_curve_shape cfgW alwaysBuyStrat [barW] (by simp)

/-- A configuration with non-positive initial capital: the spec calls this a
configuration error, but no code path validates it. -/
def cfgZero : BacktestConfig :=
  { symbol := "TEST"
    startDate := "2024-01-01"
    endDate := "2024-01-31"
    initialCapital := 0
    commission := 0 }

/-- C4 counterexample: a run with non-positive initial capital (0) over a
non-empty bar sequence is not rejected — `run` proceeds and returns a
result, contradicting the claim that a non-positive initial capital is a
configuration error surfaced immediately. -/
theorem run_accepts_nonpositive_capital :
    cfgZero.initialCapital ≤ 0 ∧ ([barW] : List Bar) ≠ [] ∧
      (runBacktest cfgZero alwaysHoldStrat [barW]).isOk = true := by
  refine ⟨by norm_num [cfgZero], by simp, ?_⟩
  simp only [runBacktest, runFromState]
  rw [if_neg (by simp)]
  rfl

/-- C4 (amended): `run` raises the fatal "No bars provided for backtest"
error exactly when the bar sequence is empty; the initial capital is never
validated, so for every non-empty bar sequence — whatever the configuration,
including a non-positive initial capital — `run` returns a `BacktestResult`
and never throws. -/
theorem run_error_iff_empty_bars (cfg : BacktestConfig) (strat : Strategy)
    (bars : List Bar) :
    (runBacktest cfg strat bars = Except.error "No bars provided for backtest" ↔
      bars = []) ∧
    (bars ≠ [] → ∃ res, runBacktest cfg strat bars = Except.ok res) := by
  constructor
  · constructor
    · intro h
      by_contra hne
      have hlen : ¬ bars.length = 0 := by
        intro h0
        exact hne (List.eq_nil_of_length_eq_zero h0)
      simp only [runBacktest, runFromState] at h
      rw [if_neg hlen] at h
      exact Except.noConfusion h
    · intro h
      subst h
      rfl
  · intro hne
    have hlen : ¬ bars.length = 0 := by
      intro h0
      exact hne (List.eq_nil_of_length_eq_zero h0)
    refine ⟨generateReport cfg strat
      (closeOut cfg (loopFrom cfg strat bars (initState cfg)) bars), ?_⟩
    simp only [runBacktest, runFromState]
    rw [if_neg hlen]

/-- Witness for `run_error_iff_empty_bars`: a concrete non-empty run
returns a result. -/
theorem run_error_iff_empty_bars_witness :
    ∃ res, runBacktest cfgZero alwaysHoldStrat [barW] = Except.ok res :=
  (run_error_iff_empty_bars cfgZero alwaysHoldStrat [barW]).2 (by simp)

/-- The value `listMax` of a nonempty list is an upper bound of the list and is one
of its elements. -/
theorem listMax_spec (l : List ℚ) (hl : l ≠ []) :
    (∀ y ∈ l, y ≤ listMax l) ∧ listMax l ∈ l := by
  have le_foldl : ∀ (t : List ℚ) (x : ℚ), x ≤ t.foldl max x := by
    intro t
    induction t with
    | nil => intro x; exact le_refl x
    | cons a t ih =>
      intro x
      exact le_trans (le_max_left x a) (ih (max x a))
  have mem_le : ∀ (t : List ℚ) (x y : ℚ), y ∈ t → y ≤ t.foldl max x := by
    intro t
    induction t with
    | nil => intro x y hy; simp at hy
    | cons a t ih =>
      intro x y hy
      rcases List.mem_cons.1 hy with h | h
      · subst h
        exact le_trans (le_max_right x y) (le_foldl t (max x y))
      · exact ih (max x a) y h
  have mem_foldl : ∀ (t : List ℚ) (x : ℚ), t.foldl max x = x ∨ t.foldl max x ∈ t := by
    intro t
    induction t with
    | nil => intro x; left; rfl
    | cons a t ih =>
      intro x
      rcases ih (max x a) with h | h
      · rcases max_choice x a with hx | ha
        · left; rw [List.foldl_cons, h, hx]
        · right; rw [List.foldl_cons, h, ha]; exact List.mem_cons_self a t
      · right; exact List.mem_cons_of_mem a h
  match l, hl with
  | x :: xs, _ =>
    constructor
    · intro y hy
      rcases List.mem_cons.1 hy with h | h
      · subst h
        exact le_foldl xs y
      · exact mem_le xs x y h
    · rcases mem_foldl xs x with h | h
      · rw [listMax, h]; exact List.mem_cons_self x xs
      · rw [listMax]; exact List.mem_cons_of_mem x h

/-- C7: on every non-empty run, `result.max_drawdown` is ≥ every per-bar
drawdown recorded in the equity curve, and is itself one of the recorded
drawdowns — i.e. it equals the maximum drawdown over the whole equity curve
rather than a quantity recomputed from the trade log. -/
theorem max_drawdown_spec (cfg : BacktestConfig) (strat : Strategy)
    (bars : List Bar) (hne : bars ≠ []) :
    ∃ res, runBacktest cfg strat bars = Except.ok res ∧
      (∀ p ∈ res.equity_curve, p.drawdown ≤ res.max_drawdown) ∧
      res.max_drawdown ∈ res.equity_curve.map (fun p => p.drawdown) := by
  have hlen : ¬ bars.length = 0 := by
    intro h
    exact hne (List.eq_nil_of_length_eq_zero h)
  refine ⟨generateReport cfg strat
    (closeOut cfg (loopFrom cfg strat bars (initState cfg)) bars), ?_, ?_, ?_⟩
  · simp only [runBacktest, runFromState]
    rw [if_neg hlen]
  · intro p hp
    have hcurvene : (closeOut cfg (loopFrom cfg strat bars (initState cfg))
        bars).equityCurve.map (fun q => q.drawdown) ≠ [] := by
      rw [closeOut_equityCurve]
      intro hmap
      have hnil := List.map_eq_nil_iff.1 hmap
      have hl := loopFrom_equityCurve_length cfg strat bars (initState cfg)
      rw [hnil] at hl
      simp [initState] at hl
      exact hlen hl.symm
    exact (listMax_spec _ hcurvene).1 p.drawdown
      (List.mem_map_of_mem (fun q => q.drawdown) hp)
  · have hcurvene : (closeOut cfg (loopFrom cfg strat bars (initState cfg))
        bars).equityCurve.map (fun q => q.drawdown) ≠ [] := by
      rw [closeOut_equityCurve]
      intro hmap
      have hnil := List.map_eq_nil_iff.1 hmap
      have hl := loopFrom_equityCurve_length cfg strat bars (initState cfg)
      rw [hnil] at hl
      simp [initState] at hl
      exact hlen hl.symm
    exact (listMax_spec _ hcurvene).2

/-- Witness for `max_drawdown_spec` at a concrete one-bar run. -/
theorem max_drawdown_spec_witness :
    ∃ res, runBacktest cfgW alwaysHoldStrat [barW] = Except.ok res ∧
      (∀ p ∈ res.equity_curve, p.drawdown ≤ res.max_drawdown) ∧
      res.max_drawdown ∈ res.equity_curve.map (fun p => p.drawdown) :=
  max_drawdown_spec cfgW alwaysHoldStrat [barW] (by simp)

/-- C8: running a backtest is deterministic — `run` is a pure function of
`(bars, config, strategy)`: two freshly constructed engines started from the
same configuration produce identical results on the same bars, with no
dependence on a clock, randomness, or state outside the supplied
instances. -/
theorem run_deterministic (cfg : BacktestConfig) (strat : Strategy)
    (bars : List Bar) (s1 s2 : EngineState)
    (h1 : s1 = initState cfg) (h2 : s2 = initState cfg) :
    runFromState cfg strat s1 bars = runFromState cfg strat s2 bars := by
  rw [h1, h2]

/-- Witness for `run_deterministic` at a concrete input. -/
theorem run_deterministic_witness :
    runFromState cfgW alwaysBuyStrat (initState cfgW) [barW] =
      runFromState cfgW alwaysBuyStrat (initState cfgW) [barW] :=
  run_deterministic cfgW alwaysBuyStrat [barW] (initState cfgW) (initState cfgW)
    rfl rfl

/-- C5: the SMA-crossover strategy holds with confidence 0 for every index
below the long period; from the long period on it buys exactly on a rising
crossover (short SMA ≤ long SMA on the previous bar, strictly greater now)
with confidence `min(((short-long)/long)*100, 1)`, sells exactly on the
symmetric falling crossover with confidence `min(((long-short)/long)*100, 1)`,
and otherwise holds with confidence 0. -/
theorem sma_crossover_signal_spec (p : SMAParams) (bars : List Bar) (i : Nat) :
    (i < p.longPeriod →
      (smaCrossoverAnalyze p bars i).action = TradeAction.hold ∧
      (smaCrossoverAnalyze p bars i).confidence = 0) ∧
    (p.longPeriod ≤ i →
      ((smaCrossoverAnalyze p bars i).action = TradeAction.buy ↔
        calculateSMA bars p.shortPeriod (i - 1) ≤
          calculateSMA bars p.longPeriod (i - 1) ∧
        calculateSMA bars p.longPeriod i < calculateSMA bars p.shortPeriod i) ∧
      ((smaCrossoverAnalyze p bars i).action = TradeAction.buy →
        (smaCrossoverAnalyze p bars i).confidence =
          min (((calculateSMA bars p.shortPeriod i -
            calculateSMA bars p.longPeriod i) /
            calculateSMA bars p.longPeriod i) * 100) 1) ∧
      ((smaCrossoverAnalyze p bars i).action = TradeAction.sell ↔
        calculateSMA bars p.longPeriod (i - 1) ≤
          calculateSMA bars p.shortPeriod (i - 1) ∧
        calculateSMA bars p.shortPeriod i < calculateSMA bars p.longPeriod i) ∧
      ((smaCrossoverAnalyze p bars i).action = TradeAction.sell →
        (smaCrossoverAnalyze p bars i).confidence =
          min (((calculateSMA bars p.longPeriod i -
            calculateSMA bars p.shortPeriod i) /
            calculateSMA bars p.longPeriod i) * 100) 1) ∧
      ((smaCrossoverAnalyze p bars i).action = TradeAction.hold →
        (smaCrossoverAnalyze p bars i).confidence = 0)) := by
  constructor
  · intro hlt
    simp only [smaCrossoverAnalyze]
    rw [if_pos hlt]
    exact ⟨rfl, rfl⟩
  · intro hge
    simp only [smaCrossoverAnalyze]
    rw [if_neg (not_lt.2 hge)]
    split_ifs with h1 h2
    · refine ⟨iff_of_true rfl ⟨h1.1, h1.2⟩, fun _ => rfl, ?_, ?_, ?_⟩
      · refine iff_of_false (by decide) ?_
        rintro ⟨_, hlt⟩
        exact lt_asymm hlt h1.2
      · exact fun h => absurd h (by decide)
      · exact fun h => absurd h (by decide)
    · refine ⟨?_, ?_, iff_of_true rfl ⟨h2.1, h2.2⟩, fun _ => rfl, ?_⟩
      · refine iff_of_false (by decide) ?_
        rintro ⟨_, hlt⟩
        exact lt_asymm hlt h2.2
      · exact fun h => absurd h (by decide)
      · exact fun h => absurd h (by decide)
    · refine ⟨?_, ?_, ?_, ?_, fun _ => rfl⟩
      · exact iff_of_false (by decide) (fun hr => h1 ⟨hr.1, hr.2⟩)
      · exact fun h => absurd h (by decide)
      · exact iff_of_false (by decide) (fun hr => h2 ⟨hr.1, hr.2⟩)
      · exact fun h => absurd h (by decide)

/-- Witness for `sma_crossover_signal_spec`: below the long period the
strategy holds with confidence 0. -/
theorem sma_crossover_signal_spec_witness :
    (smaCrossoverAnalyze { shortPeriod := 10, longPeriod := 30 } [barW] 0).action =
        TradeAction.hold ∧
      (smaCrossoverAnalyze { shortPeriod := 10, longPeriod := 30 } [barW] 0).confidence
        = 0 :=
  (sma_crossover_signal_spec { shortPeriod := 10, longPeriod := 30 } [barW] 0).1
    (by norm_num)

/-- C6: the RSI indicator returns the neutral sentinel 50 when
`endIndex < period`; otherwise it takes the simple averages of gains and
losses over the trailing `period` close-to-close changes and returns 100
when the average loss is 0, else `100 - 100/(1 + avgGain/avgLoss)`. -/
theorem rsi_spec (bars : List Bar) (period : Nat) (endIndex : Nat) :
    (endIndex < period → calculateRSI bars period endIndex = 50) ∧
    (period ≤ endIndex →
      ((((List.range period).map (fun k =>
          max (-((bars.getD (endIndex + 1 - period + k) default).c -
            (bars.getD (endIndex - period + k) default).c)) 0)).sum /
          (period : ℚ) = 0 →
        calculateRSI bars period endIndex = 100) ∧
      ((((List.range period).map (fun k =>
          max (-((bars.getD (endIndex + 1 - period + k) default).c -
            (bars.getD (endIndex - period + k) default).c)) 0)).sum /
          (period : ℚ)) ≠ 0 →
        calculateRSI bars period endIndex =
          100 - 100 / (1 +
            ((((List.range period).map (fun k =>
              max ((bars.getD (endIndex + 1 - period + k) default).c -
                (bars.getD (endIndex - period + k) default).c) 0)).sum /
              (period : ℚ)) /
             (((List.range period).map (fun k =>
              max (-((bars.getD (endIndex + 1 - period + k) default).c -
                (bars.getD (endIndex - period + k) default).c)) 0)).sum /
              (period : ℚ))))))) := by
  have hifg : ∀ x : ℚ, (if x > 0 then x else 0) = max x 0 := by
    intro x
    rcases le_or_lt x 0 with h | h
    · rw [if_neg (not_lt.2 h), max_eq_right h]
    · rw [if_pos h, max_eq_left h.le]
  have hifl : ∀ x : ℚ, (if x > 0 then 0 else -x) = max (-x) 0 := by
    intro x
    rcases le_or_lt x 0 with h | h
    · rw [if_neg (not_lt.2 h), max_eq_left (by linarith)]
    · rw [if_pos h, max_eq_right (by linarith)]
  constructor
  · intro hlt
    simp only [calculateRSI]
    rw [if_pos hlt]
  · intro hge
    simp only [calculateRSI, hifg, hifl]
    rw [if_neg (not_lt.2 hge)]
    constructor
    · intro h0
      rw [if_pos h0]
    · intro h0
      rw [if_neg h0]

/-- Witness for `rsi_spec`: with insufficient data the RSI is the neutral
sentinel 50. -/
theorem rsi_spec_witness : calculateRSI [barW] 14 0 = 50 :=
  (rsi_spec [barW] 14 0).1 (by norm_num)

theorem lookup_map_update (reg : Registry) (sid : String)
    (base s2 : RegistryStrategy) (hlook : reg.lookup sid = some base) :
    (reg.map (fun kv => if kv.1 = sid then (kv.1, s2) else kv)).lookup sid =
      some s2 := by
  induction reg with
  | nil => simp [List.lookup] at hlook
  | cons kv t ih =>
    obtain ⟨k, v⟩ := kv
    by_cases h : k = sid
    · subst h
      simp [List.lookup_cons]
    · have hne : sid ≠ k := fun hh => h hh.symm
      simp only [List.lookup_cons, beq_false_of_ne hne] at hlook
      simp only [List.map_cons, if_neg h, List.lookup_cons, beq_false_of_ne hne]
      exact ih hlook

/-- C9: for a registered id, `getStrategy(id, params)` returns the shared
registry instance itself (the updated registry still maps the id to the very
record returned) after assigning the merged parameter map into it; a later
`getStrategy(id)` with no parameters therefore returns a strategy whose
parameters still contain the earlier overrides. -/
theorem getStrategy_overrides_persist (reg : Registry) (sid : String)
    (base : RegistryStrategy) (p : StratParams)
    (hlook : reg.lookup sid = some base) :
    (getStrategy reg sid (some p)).1 =
      some { base with parameters := mergeParams base.parameters p } ∧
    ((getStrategy reg sid (some p)).2).lookup sid = (getStrategy reg sid (some p)).1 ∧
    (getStrategy ((getStrategy reg sid (some p)).2) sid none).1 =
      some { base with parameters := mergeParams base.parameters p } := by
  have hstep : getStrategy reg sid (some p) =
      (some { base with parameters := mergeParams base.parameters p },
       reg.map (fun kv => if kv.1 = sid then
         (kv.1, { base with parameters := mergeParams base.parameters p })
         else kv)) := by
    simp only [getStrategy, hlook]
  rw [hstep]
  have hl2 := lookup_map_update reg sid base
    { base with parameters := mergeParams base.parameters p } hlook
  refine ⟨rfl, hl2, ?_⟩
  simp only [getStrategy, hl2]

/-- Witness for `getStrategy_overrides_persist`: overriding the SMA
crossover's short period to 5 persists into a later parameterless lookup. -/
theorem getStrategy_overrides_persist_witness :
    (getStrategy initialRegistry "sma-crossover" (some [("shortPeriod", 5)])).1 =
      some { name := "SMA Crossover"
             parameters := mergeParams
               [("shortPeriod", 10), ("longPeriod", 30)] [("shortPeriod", 5)] } ∧
    ((getStrategy initialRegistry "sma-crossover"
        (some [("shortPeriod", 5)])).2).lookup "sma-crossover" =
      (getStrategy initialRegistry "sma-crossover" (some [("shortPeriod", 5)])).1 ∧
    (getStrategy ((getStrategy initialRegistry "sma-crossover"
        (some [("shortPeriod", 5)])).2) "sma-crossover" none).1 =
      some { name := "SMA Crossover"
             parameters := mergeParams
               [("shortPeriod", 10), ("longPeriod", 30)] [("shortPeriod", 5)] } :=
  getStrategy_overrides_persist initialRegistry "sma-crossover"
    { name := "SMA Crossover"
      parameters := [("shortPeriod", 10), ("longPeriod", 30)] }
    [("shortPeriod", 5)] (by decide)

end TradingPlatform
